import Mathlib

/-!
Shallow embedding of the Calendar & Event Roster Engine from
`src/components/groupEventPlanner.tsx`.

Modelling conventions:
* A JavaScript timestamp (milliseconds since the epoch, as produced by
  `parseISO(...).getTime()`) is an `Int`.
* An `Event`'s `date` field is a string in the source, but every consumer
  first applies the external `parseISO` from date-fns; we embed the field as
  `Option Int`: `some t` is a string parsing to the instant `t`, `none` is an
  unparseable string (`isValid(parseISO(s))` is then `false`).
* `maxAttendees?: number` is `Option Int`; `none` stands for `undefined` and
  for `NaN` (both are falsy in the `event.maxAttendees && ...` guard and both
  make every numeric comparison against them fail).
* The ambient wall clock (`new Date()`) is an explicit `now : Int` parameter;
  the external `parseISO` used on raw form input is an explicit
  `String → Option Int` parameter; the generated event id is an explicit
  parameter. The acting attendee (`mockUser` in the source) is a parameter.
* `Array.prototype.sort` with comparator `(a, b) => ka - kb` is, per the
  ECMAScript specification, a stable ascending sort by the key, which is
  exactly `List.mergeSort` with `fun a b => ka ≤ kb`.
* A calendar day (local-day truncation used by `isSameDay` and by
  `format(d, "yyyy-MM-dd")`) is the floor of the instant divided by the
  number of milliseconds per day.
-/

structure Attendee where
  id : String
  name : String
  avatarColor : Option String
deriving DecidableEq, Repr

structure Event where
  id : String
  title : String
  date : Option Int
  description : String
  location : String
  attendees : List Attendee
  maxAttendees : Option Int
  createdBy : Attendee
deriving DecidableEq, Repr

/-- Milliseconds in one calendar day. -/
def msPerDay : Int := 86400000

/-- Local-calendar-day bucket of an instant (the day key used by
`isSameDay` and by `format(date, "yyyy-MM-dd")`). -/
def dayOf (t : Int) : Int := Int.fdiv t msPerDay

/-- The filter predicate of `eventsOnSelectedDate`:
`isValid(parseISO(event.date)) && isSameDay(parseISO(event.date), selectedDate)`. -/
def onDay (sd : Int) (e : Event) : Bool :=
  match e.date with
  | some t => decide (dayOf t = dayOf sd)
  | none => false

/-- Sort key of `eventsOnSelectedDate`: `parseISO(a.date).getTime()`
(the filter guarantees the date is valid, so `getD` never fires). -/
def eventTime (e : Event) : Int := e.date.getD 0

/-- `eventsOnSelectedDate` from the source: `[]` when no date is selected,
otherwise filter the events to the selected calendar day and stable-sort
ascending by exact instant. -/
def eventsOnSelectedDate (selectedDate : Option Int) (events : List Event) : List Event :=
  match selectedDate with
  | none => []
  | some sd =>
      (events.filter (onDay sd)).mergeSort (fun a b => decide (eventTime a ≤ eventTime b))

/-- JS `Map.get`, on the association-list model of a `Map` keeping
insertion order of keys. -/
def mapGet (m : List (Int × List Event)) (k : Int) : Option (List Event) :=
  match m with
  | [] => none
  | (k', v) :: rest => if k' = k then some v else mapGet rest k

/-- JS `Map.set`: update the key in place if present, else append it. -/
def mapSet (m : List (Int × List Event)) (k : Int) (v : List Event) :
    List (Int × List Event) :=
  match m with
  | [] => [(k, v)]
  | (k', v') :: rest => if k' = k then (k, v) :: rest else (k', v') :: mapSet rest k v

/-- One step of the `events.forEach` loop of `eventsByDate`:
skip events with an invalid date, otherwise append the event to its
day-key group (`map.get(dateKey) || []` then `set`). -/
def indexStep (m : List (Int × List Event)) (e : Event) : List (Int × List Event) :=
  match e.date with
  | none => m
  | some t =>
      let dateKey := dayOf t
      let existing := (mapGet m dateKey).getD []
      mapSet m dateKey (existing ++ [e])

/-- `eventsByDate` from the source: fold the flat event list into the map. -/
def eventsByDate (events : List Event) : List (Int × List Event) :=
  events.foldl indexStep []

/-- The group stored for day key `k` (empty when the key is absent). -/
def groupOn (events : List Event) (k : Int) : List Event :=
  (mapGet (eventsByDate events) k).getD []

/-- Membership test `event.attendees.some((a) => a.id === mockUser.id)`. -/
def isAttending (user : Attendee) (e : Event) : Bool :=
  e.attendees.any (fun a => a.id = user.id)

/-- Whether the capacity guard `event.maxAttendees && event.attendees.length
>= event.maxAttendees` is truthy: `undefined`/`NaN` and `0` are falsy. -/
def rsvpFullGuard (e : Event) : Bool :=
  match e.maxAttendees with
  | some m => decide (¬ m = 0) && decide (m ≤ (e.attendees.length : Int))
  | none => false

/-- The per-event body of the `prevEvents.map` callback in `handleRsvp`. -/
def rsvpEvent (user : Attendee) (eventId : String) (e : Event) : Event :=
  if e.id = eventId then
    if isAttending user e then
      { e with attendees := e.attendees.filter (fun a => ¬ a.id = user.id) }
    else
      if rsvpFullGuard e then e
      else { e with attendees := e.attendees ++ [user] }
  else e

/-- `handleRsvp` from the source: map the toggle over the event list. -/
def handleRsvp (events : List Event) (eventId : String) (user : Attendee) : List Event :=
  events.map (rsvpEvent user eventId)

/-- The draft payload `handleSubmit` hands to `onAddEvent`; the raw
datetime-local string is embedded as its `parseISO` image. -/
structure NewEventData where
  title : String
  date : Option Int
  description : String
  location : String
  maxAttendees : Option Int
deriving DecidableEq, Repr

/-- `handleAddEvent` from the source: reject an unparseable date with a toast
(leaving the list unchanged), otherwise append a new event whose attendee
list starts with the creator. -/
def handleAddEvent (user : Attendee) (newId : String) (events : List Event)
    (d : NewEventData) : List Event :=
  match d.date with
  | none => events
  | some t =>
      events ++ [{ id := newId, title := d.title, date := some t,
                   description := d.description, location := d.location,
                   attendees := [user], maxAttendees := d.maxAttendees,
                   createdBy := user : Event }]

/-- JS whitespace as used by `trim` and `parseInt`. -/
def isJsSpace (c : Char) : Bool :=
  c = ' ' || c = '\t' || c = '\n' || c = '\r'

/-- ECMAScript `String.prototype.trim`: strip whitespace from both ends. -/
def jsTrim (s : String) : String :=
  ⟨((s.toList.dropWhile isJsSpace).reverse.dropWhile isJsSpace).reverse⟩

/-- ECMAScript `parseInt(s, 10)`: skip leading whitespace, read an optional
sign and then the longest prefix of decimal digits; `none` models `NaN`. -/
def jsParseInt (s : String) : Option Int :=
  let chars := s.toList.dropWhile isJsSpace
  let signAndRest : Int × List Char :=
    match chars with
    | '-' :: cs => (-1, cs)
    | '+' :: cs => (1, cs)
    | cs => (1, cs)
  let digits := signAndRest.2.takeWhile (fun c => c.isDigit)
  if digits.isEmpty then none
  else some (signAndRest.1 *
    (digits.foldl (fun acc c => acc * 10 + (c.toNat - '0'.toNat)) (0 : Nat) : Int))

/-- The per-field error map built by `validateForm`. -/
structure FormErrors where
  title : Option String
  date : Option String
  location : Option String
  maxAttendees : Option String
deriving DecidableEq, Repr

/-- Title rule of `validateForm`: `!title.trim()`. -/
def titleError (title : String) : Option String :=
  if jsTrim title = "" then some "Title is required." else none

/-- Date rule of `validateForm`: required, must parse, and if it is before
`now` it must not be before `now` minus the 60000 ms grace window. -/
def dateError (parseISO : String → Option Int) (now : Int) (dateStr : String) :
    Option String :=
  if dateStr = "" then some "Date and time are required."
  else
    match parseISO dateStr with
    | none => some "Invalid date/time format."
    | some t =>
        if t < now then
          if t < now - 60000 then some "Date/time cannot be in the past." else none
        else none

/-- Location rule of `validateForm`: `!location.trim()`. -/
def locationError (location : String) : Option String :=
  if jsTrim location = "" then some "Location is required." else none

/-- Max-attendees rule of `validateForm`:
`maxAttendees && Number.parseInt(maxAttendees, 10) <= 0`.
When `parseInt` yields `NaN`, the comparison `NaN <= 0` is `false`,
so the guard does not fire. -/
def maxAttendeesError (maxAtt : String) : Option String :=
  if (!(maxAtt = "")) &&
      (match jsParseInt maxAtt with
       | some n => decide (n ≤ 0)
       | none => false) then
    some "Max attendees must be a positive number."
  else none

/-- `validateForm` from the source: the error map plus the `isValidForm`
flag, which is `true` exactly when no field recorded an error. -/
def validateForm (parseISO : String → Option Int) (now : Int)
    (title dateStr location maxAtt : String) : FormErrors × Bool :=
  let errs : FormErrors :=
    { title := titleError title
      date := dateError parseISO now dateStr
      location := locationError location
      maxAttendees := maxAttendeesError maxAtt }
  (errs, errs.title.isNone && errs.date.isNone &&
         errs.location.isNone && errs.maxAttendees.isNone)

/-- `handleSubmit` from the source: invoke `onAddEvent` with the trimmed and
converted draft exactly when `validateForm` passes; `some` models the call,
`none` models no call. -/
def handleSubmit (parseISO : String → Option Int) (now : Int)
    (title dateStr description location maxAtt : String) : Option NewEventData :=
  if (validateForm parseISO now title dateStr location maxAtt).2 then
    some { title := jsTrim title
           date := parseISO dateStr
           description := jsTrim description
           location := jsTrim location
           maxAttendees := if maxAtt = "" then none else jsParseInt maxAtt }
  else none

/-- `handleSubmit` composed with the parent's `onAddEvent = handleAddEvent`:
the event list produced by one submission attempt. -/
def submitAndAdd (parseISO : String → Option Int) (now : Int) (user : Attendee)
    (newId : String) (events : List Event)
    (title dateStr description location maxAtt : String) : List Event :=
  match handleSubmit parseISO now title dateStr description location maxAtt with
  | some d => handleAddEvent user newId events d
  | none => events

/-- Gregorian leap-year rule. -/
def isLeapYear (y : Nat) : Bool :=
  (y % 4 = 0 && !(y % 100 = 0)) || y % 400 = 0

/-- Length of month `m` (1-based) of year `y`. -/
def daysInMonth (y m : Nat) : Nat :=
  if m = 2 then (if isLeapYear y then 29 else 28)
  else if m = 4 || m = 6 || m = 9 || m = 11 then 30
  else 31

/-- Days in the months of year `y` strictly before month `m` (1-based). -/
def daysBeforeMonth (y : Nat) : Nat → Nat
  | 0 => 0
  | Nat.succ m => if Nat.succ m ≤ 1 then 0 else daysBeforeMonth y m + daysInMonth y m

/-- Rata-die day number of the proleptic Gregorian date `y-m-d`
(day 1 is 0001-01-01; day 0, 0000-12-31, is a Sunday). -/
def rataDie (y m d : Nat) : Nat :=
  365 * (y - 1) + ((y - 1) / 4 - (y - 1) / 100) + (y - 1) / 400 +
    daysBeforeMonth y m + d

/-- Weekday of a day number, `0` = Sunday through `6` = Saturday
(the JS `Date.getDay` convention used by date-fns with its default
`weekStartsOn: 0`). -/
def dayOfWeek (n : Nat) : Nat := n % 7

/-- `startOfMonth(currentMonth)` as a day number. -/
def monthStartDay (y m : Nat) : Nat := rataDie y m 1

/-- `endOfMonth(monthStart)` as a day number. -/
def monthEndDay (y m : Nat) : Nat := rataDie y m (daysInMonth y m)

/-- `startOfWeek` (Sunday convention): most recent Sunday on or before `n`. -/
def weekStart (n : Nat) : Nat := n - dayOfWeek n

/-- `endOfWeek` (Sunday convention): next Saturday on or after `n`. -/
def weekEnd (n : Nat) : Nat := n + (6 - dayOfWeek n)

/-- The `while (day <= endDate)` loop of `calendarDays`: each iteration
pushes seven consecutive days as one row and advances `day` by seven. -/
def buildRows (endDate : Nat) (day : Nat) : List (List Nat) :=
  if day ≤ endDate then
    ((List.range 7).map (fun i => day + i)) :: buildRows endDate (day + 7)
  else []
termination_by endDate + 1 - day
decreasing_by omega

/-- `calendarDays` from the source, on day numbers: rows of the grid from
the week start on/before the 1st to the week end on/after the month's last day. -/
def calendarDays (y m : Nat) : List (List Nat) :=
  buildRows (weekEnd (monthEndDay y m)) (weekStart (monthStartDay y m))

/-- Anchor check for the weekday convention: 2024-01-01 was a Monday. -/
example : dayOfWeek (rataDie 2024 1 1) = 1 := by decide

/-- Anchor check: 2023-12-31 was a Sunday. -/
example : dayOfWeek (rataDie 2023 12 31) = 0 := by decide

/-! Sample data reused by concrete instantiations. -/

/-- The acting attendee of the source (`mockUser`). -/
def userU : Attendee := { id := "user1", name := "You", avatarColor := none }

/-- A second attendee. -/
def userAlice : Attendee := { id := "user2", name := "Alice", avatarColor := none }

/-- A concrete event that is at capacity (`maxAttendees = 1`, one attendee). -/
def evFull : Event :=
  { id := "evt1", title := "Team Sync", date := some 1750000000000,
    description := "", location := "Office", attendees := [userAlice],
    maxAttendees := some 1, createdBy := userAlice }

/-- A concrete event with a free slot. -/
def evOpen : Event :=
  { id := "evt2", title := "Hike", date := some 1750003600000,
    description := "", location := "Trail", attendees := [userAlice],
    maxAttendees := some 8, createdBy := userAlice }

/-- C10: when no day is selected, the Day Selector returns the empty list for
every event list, with no filtering, sorting, or error. -/
theorem c10_no_selected_day (events : List Event) :
    eventsOnSelectedDate none events = [] := rfl

/-- C5: for a supplied, parsable date instant `t`, `validateForm` accepts the
date field precisely when `t` is at most 60 seconds (60000 ms) before `now`,
and an instant more than 60 seconds in the past is rejected with the
past-date error. -/
theorem c5_grace_window (parseISO : String → Option Int) (now t : Int)
    (title dateStr location maxAtt : String)
    (hne : ¬ dateStr = "") (hparse : parseISO dateStr = some t) :
    ((validateForm parseISO now title dateStr location maxAtt).1.date = none ↔
      now - 60000 ≤ t) ∧
    (t < now - 60000 →
      (validateForm parseISO now title dateStr location maxAtt).1.date =
        some "Date/time cannot be in the past.") := by
  have hd : dateError parseISO now dateStr =
      (if t < now then
        if t < now - 60000 then some "Date/time cannot be in the past." else none
       else none) := by
    rw [dateError, if_neg hne, hparse]
  constructor
  · show (dateError parseISO now dateStr = none ↔ _)
    rw [hd]
    split_ifs with h1 h2 <;> simp <;> omega
  · intro h
    show dateError parseISO now dateStr = _
    rw [hd, if_pos (by omega), if_pos h]

/-- C5 witness: an instant 5 seconds before `now = 0` is accepted on the date
field, and an instant 5 minutes before is rejected as past. -/
theorem c5_grace_window_witness :
    (validateForm (fun _ => some (-5000)) 0 "Sync" "d1" "X" "").1.date = none ∧
    (validateForm (fun _ => some (-300000)) 0 "Sync" "d2" "X" "").1.date =
      some "Date/time cannot be in the past." :=
  ⟨(c5_grace_window (fun _ => some (-5000)) 0 (-5000) "Sync" "d1" "X" ""
      (by decide) rfl).1.mpr (by decide),
   (c5_grace_window (fun _ => some (-300000)) 0 (-300000) "Sync" "d2" "X" ""
      (by decide) rfl).2 (by decide)⟩

/-- C4 (code bug exhibit): the supplied max-attendee value `"abc"` does not
parse to an integer (`parseInt` gives `NaN`), yet `validateForm` records no
maxAttendees error and accepts the draft, because `NaN <= 0` is false in the
guard `maxAttendees && Number.parseInt(maxAttendees, 10) <= 0`. -/
theorem c4_unparseable_max_accepted :
    jsParseInt "abc" = none ∧
    (validateForm (fun _ => some 3600000) 0 "Sync" "d" "X" "abc").1.maxAttendees
      = none ∧
    (validateForm (fun _ => some 3600000) 0 "Sync" "d" "X" "abc").2 = true := by
  refine ⟨by decide, by decide, by decide⟩

/-- C9: the `isValidForm` flag holds exactly when every per-field error slot is
empty; `onAddEvent` is invoked (the submission returns `some` draft) exactly
when the flag holds; and a failed validation leaves the event list untouched. -/
theorem c9_validation_gates_creation (parseISO : String → Option Int) (now : Int)
    (user : Attendee) (newId : String) (events : List Event)
    (title dateStr description location maxAtt : String) :
    ((validateForm parseISO now title dateStr location maxAtt).2 = true ↔
      (validateForm parseISO now title dateStr location maxAtt).1.title = none ∧
      (validateForm parseISO now title dateStr location maxAtt).1.date = none ∧
      (validateForm parseISO now title dateStr location maxAtt).1.location = none ∧
      (validateForm parseISO now title dateStr location maxAtt).1.maxAttendees = none) ∧
    ((handleSubmit parseISO now title dateStr description location maxAtt).isSome ↔
      (validateForm parseISO now title dateStr location maxAtt).2 = true) ∧
    (¬ (validateForm parseISO now title dateStr location maxAtt).2 = true →
      submitAndAdd parseISO now user newId events title dateStr description
        location maxAtt = events) := by
  refine ⟨?_, ?_, ?_⟩
  · simp [validateForm, Option.isNone_iff_eq_none, and_assoc]
  · rw [handleSubmit]
    split
    · simp [*]
    · simp [*]
  · intro h
    rw [submitAndAdd, handleSubmit, if_neg h]

/-- C9 witness: a draft with an empty title fails validation, so no event is
created and the list is unchanged. -/
theorem c9_validation_witness :
    submitAndAdd (fun _ => some 3600000) 0 userU "evt9" [evOpen] "" "d" "" "X" ""
      = [evOpen] :=
  (c9_validation_gates_creation (fun _ => some 3600000) 0 userU "evt9" [evOpen]
    "" "d" "" "X" "").2.2 (by decide)

/-- C1: the Roster Mutator toggles membership on the targeted event. A member
is always removed; a non-member is appended to the end of the attendee
sequence unless `maxAttendees` is set and the attendee count has reached it,
in which case the join is rejected and the attendee list is unchanged.
(`maxAttendees`, when set, is a positive integer per the data model.) -/
theorem c1_rsvp_toggle (events : List Event) (eventId : String) (user : Attendee)
    (hmax : ∀ e ∈ events, ∀ m, e.maxAttendees = some m → 1 ≤ m) :
    List.Forall₂ (fun e e' =>
      e.id = eventId →
        ((isAttending user e = true →
            e'.attendees = e.attendees.filter (fun a => ¬ a.id = user.id)) ∧
         (isAttending user e = false →
            (∃ m, e.maxAttendees = some m ∧ m ≤ (e.attendees.length : Int)) →
              e'.attendees = e.attendees) ∧
         (isAttending user e = false →
            (¬ ∃ m, e.maxAttendees = some m ∧ m ≤ (e.attendees.length : Int)) →
              e'.attendees = e.attendees ++ [user])))
      events (handleRsvp events eventId user) := by
  rw [handleRsvp, List.forall₂_map_right_iff, List.forall₂_same]
  intro e he hid
  have hm := hmax e he
  rw [rsvpEvent, if_pos hid]
  refine ⟨?_, ?_, ?_⟩
  · intro hatt
    rw [if_pos hatt]
  · intro hatt hfull
    rw [if_neg (by simp [hatt])]
    obtain ⟨m, hms, hlen⟩ := hfull
    have hguard : rsvpFullGuard e = true := by
      have h1 : 1 ≤ m := hm m hms
      simp only [rsvpFullGuard, hms, Bool.and_eq_true, decide_eq_true_eq]
      exact ⟨by omega, hlen⟩
    rw [if_pos hguard]
  · intro hatt hnotfull
    rw [if_neg (by simp [hatt])]
    have hguard : rsvpFullGuard e = false := by
      cases hms : e.maxAttendees with
      | none => simp [rsvpFullGuard, hms]
      | some m =>
          have hnle : ¬ m ≤ (e.attendees.length : Int) :=
            fun hle => hnotfull ⟨m, hms, hle⟩
          simp [rsvpFullGuard, hms, hnle]
    rw [if_neg (by simp [hguard])]

/-- C1 witness: a non-member's join attempt on a full event (capacity 1, one
attendee) leaves the attendee list unchanged. -/
theorem c1_rsvp_toggle_witness :
    ∃ e', handleRsvp [evFull] "evt1" userU = [e'] ∧
      e'.attendees = evFull.attendees := by
  have hmax : ∀ e ∈ [evFull], ∀ m : Int, e.maxAttendees = some m → 1 ≤ m := by
    intro e he m hmm
    rw [List.mem_singleton] at he
    subst he
    have h8 : (some 1 : Option Int) = some m := hmm
    injection h8 with h8
    omega
  have h := c1_rsvp_toggle [evFull] "evt1" userU hmax
  have e1 : handleRsvp [evFull] "evt1" userU = [rsvpEvent userU "evt1" evFull] := rfl
  rw [e1] at h
  rw [List.forall₂_cons] at h
  exact ⟨rsvpEvent userU "evt1" evFull, e1,
    (h.1 rfl).2.1 (by decide) ⟨1, rfl, by decide⟩⟩

/-- C8: the Roster Mutator changes no event other than the targeted one, and
on the targeted one only the `attendees` field may differ; when no event has
the target id the returned list equals the input list (silent no-op). -/
theorem c8_frame (events : List Event) (eventId : String) (user : Attendee) :
    List.Forall₂ (fun e e' =>
      (¬ e.id = eventId → e' = e) ∧
      (e.id = eventId → ∃ att, e' = { e with attendees := att }))
      events (handleRsvp events eventId user) ∧
    ((∀ e ∈ events, ¬ e.id = eventId) → handleRsvp events eventId user = events) := by
  constructor
  · rw [handleRsvp, List.forall₂_map_right_iff, List.forall₂_same]
    intro e _
    constructor
    · intro hne
      rw [rsvpEvent, if_neg hne]
    · intro hid
      rw [rsvpEvent, if_pos hid]
      split
      · exact ⟨_, rfl⟩
      · split
        · exact ⟨e.attendees, rfl⟩
        · exact ⟨_, rfl⟩
  · intro h
    rw [handleRsvp]
    have hcongr : ∀ e ∈ events, rsvpEvent user eventId e = id e := by
      intro e he
      rw [rsvpEvent, if_neg (h e he)]
      rfl
    rw [List.map_congr_left hcongr, List.map_id]

/-- C8 witness: with a target id matching no event, the list is returned
element-wise unchanged. -/
theorem c8_frame_witness :
    handleRsvp [evFull, evOpen] "missing" userU = [evFull, evOpen] :=
  (c8_frame [evFull, evOpen] "missing" userU).2 (by decide)

/-- Data-model invariant: no duplicate attendee id. -/
def attendeeIdsNodup (e : Event) : Prop :=
  (e.attendees.map Attendee.id).Nodup

/-- Data-model invariant: the attendee count never exceeds a set capacity. -/
def capacityOk (e : Event) : Prop :=
  ∀ m, e.maxAttendees = some m → (e.attendees.length : Int) ≤ m

/-- Data-model constraint: `maxAttendees`, when set, is a positive integer. -/
def maxPositive (e : Event) : Prop :=
  ∀ m, e.maxAttendees = some m → 1 ≤ m

/-- The Event invariant of the spec's data model. -/
def eventInv (e : Event) : Prop :=
  attendeeIdsNodup e ∧ capacityOk e

/-- A draft accepted by `handleSubmit` carries a positive capacity whenever it
carries one at all, because `validateForm` rejects parsed values `<= 0`. -/
theorem submit_max_positive (parseISO : String → Option Int) (now : Int)
    (title dateStr description location maxAtt : String) (d : NewEventData)
    (h : handleSubmit parseISO now title dateStr description location maxAtt = some d) :
    ∀ m, d.maxAttendees = some m → 1 ≤ m := by
  rw [handleSubmit] at h
  split at h
  case isFalse => exact absurd h (by simp)
  case isTrue hv =>
    have herr : maxAttendeesError maxAtt = none := by
      have hv' := hv
      simp only [validateForm, Bool.and_eq_true, Option.isNone_iff_eq_none] at hv'
      exact hv'.2
    injection h with h'
    subst h'
    intro m hmm
    simp only at hmm
    split at hmm
    case isTrue => exact absurd hmm (by simp)
    case isFalse hne =>
      rw [maxAttendeesError] at herr
      split at herr
      case isTrue => exact absurd herr (by simp)
      case isFalse hguard =>
        simp only [hmm, Bool.not_eq_true', Bool.and_eq_true, Bool.not_eq_false',
          decide_eq_true_eq, not_and] at hguard
        have := hguard (by simpa using hne)
        omega

/-- C6: both mutations preserve the Event data-model invariants. After any
RSVP toggle every event still has duplicate-free attendee ids and respects a
set capacity; an event created from a validated submission satisfies the
invariants as well, the creator being its sole initial attendee. -/
theorem c6_invariants_preserved (events : List Event) (eventId : String)
    (user : Attendee) (parseISO : String → Option Int) (now : Int) (newId : String)
    (title dateStr description location maxAtt : String)
    (hinv : ∀ e ∈ events, eventInv e) (hpos : ∀ e ∈ events, maxPositive e) :
    (∀ e' ∈ handleRsvp events eventId user, eventInv e') ∧
    (∀ d, handleSubmit parseISO now title dateStr description location maxAtt = some d →
      ∀ e' ∈ handleAddEvent user newId events d, eventInv e') := by
  constructor
  · intro e' he'
    rw [handleRsvp] at he'
    obtain ⟨e, he, rfl⟩ := List.mem_map.mp he'
    obtain ⟨hnd, hcap⟩ := hinv e he
    have hp := hpos e he
    rw [rsvpEvent]
    split
    case isFalse => exact ⟨hnd, hcap⟩
    case isTrue =>
      split
      case isTrue hatt =>
        constructor
        · exact List.Nodup.sublist ((List.filter_sublist _).map _) hnd
        · intro m hmm
          have hle : (e.attendees.filter (fun a => ¬ a.id = user.id)).length ≤
              e.attendees.length := (List.filter_sublist _).length_le
          have hmm' : e.maxAttendees = some m := hmm
          have := hcap m hmm'
          show ((e.attendees.filter (fun a => ¬ a.id = user.id)).length : Int) ≤ m
          omega
      case isFalse hatt =>
        split
        case isTrue => exact ⟨hnd, hcap⟩
        case isFalse hguard =>
          have hmem : ¬ user.id ∈ e.attendees.map Attendee.id := by
            rw [Bool.not_eq_true] at hatt
            rw [isAttending, List.any_eq_false] at hatt
            simp only [List.mem_map, not_exists, not_and]
            intro a ha
            have := hatt a ha
            simp only [decide_eq_true_eq] at this
            exact this
          constructor
          · show ((e.attendees ++ [user]).map Attendee.id).Nodup
            rw [List.map_append, List.nodup_append]
            refine ⟨hnd, by simp, ?_⟩
            intro x hx hx'
            simp only [List.map_cons, List.map_nil, List.mem_singleton] at hx'
            exact hmem (hx' ▸ hx)
          · intro m hmm
            have h1 := hp m hmm
            have hguard' : ¬ (¬ m = 0 ∧ m ≤ (e.attendees.length : Int)) := by
              rw [Bool.not_eq_true] at hguard
              rw [rsvpFullGuard, hmm] at hguard
              simpa using hguard
            have hlt : ¬ m ≤ (e.attendees.length : Int) := fun hle =>
              hguard' ⟨by omega, hle⟩
            show (((e.attendees ++ [user]).length : Nat) : Int) ≤ m
            simp only [List.length_append, List.length_cons, List.length_nil]
            push_cast
            omega
  · intro d hd e' he'
    rw [handleAddEvent] at he'
    cases hdd : d.date with
    | none =>
        rw [hdd] at he'
        exact hinv e' he'
    | some t =>
        rw [hdd] at he'
        rw [List.mem_append] at he'
        cases he' with
        | inl hmem => exact hinv e' hmem
        | inr hnew =>
            rw [List.mem_singleton] at hnew
            subst hnew
            constructor
            · show ([user].map Attendee.id).Nodup
              simp
            · intro m hmm
              have := submit_max_positive parseISO now title dateStr description
                location maxAtt d hd m hmm
              simp only [List.length_singleton]
              omega

/-- C6 witness: toggling the acting attendee onto an open event yields an
event that still satisfies the data-model invariants. -/
theorem c6_invariants_witness :
    eventInv (rsvpEvent userU "evt2" evOpen) := by
  have hinv : ∀ e ∈ [evOpen], eventInv e := by
    intro e he
    rw [List.mem_singleton] at he
    subst he
    refine ⟨show (evOpen.attendees.map Attendee.id).Nodup by decide, ?_⟩
    intro m hmm
    have h8 : (some 8 : Option Int) = some m := hmm
    injection h8 with h8
    subst h8
    decide
  have hpos : ∀ e ∈ [evOpen], maxPositive e := by
    intro e he m hmm
    rw [List.mem_singleton] at he
    subst he
    have h8 : (some 8 : Option Int) = some m := hmm
    injection h8 with h8
    omega
  exact (c6_invariants_preserved [evOpen] "evt2" userU (fun _ => some 0) 0 "x"
    "T" "d" "" "L" "" hinv hpos).1 (rsvpEvent userU "evt2" evOpen)
    (by rw [show handleRsvp [evOpen] "evt2" userU = [rsvpEvent userU "evt2" evOpen] from rfl]
        exact List.mem_singleton.mpr rfl)

/-- The Day Selector's comparator is transitive. -/
theorem eventTime_le_trans : ∀ (a b c : Event),
    decide (eventTime a ≤ eventTime b) = true →
    decide (eventTime b ≤ eventTime c) = true →
    decide (eventTime a ≤ eventTime c) = true := by
  intro a b c hab hbc
  simp only [decide_eq_true_eq] at hab hbc ⊢
  omega

/-- The Day Selector's comparator is total. -/
theorem eventTime_le_total : ∀ (a b : Event),
    (decide (eventTime a ≤ eventTime b) || decide (eventTime b ≤ eventTime a)) = true := by
  intro a b
  simp only [Bool.or_eq_true, decide_eq_true_eq]
  omega

/-- C3: for a selected day, the Day Selector returns exactly the events whose
date is valid and falls on that day (as a permutation of that filter, with
invalid-dated events excluded), sorted ascending by exact instant; events
sharing one instant keep their source-list relative order (stable sort); and
when nothing matches the result is the empty list. -/
theorem c3_day_selector (sd : Int) (events : List Event) :
    (eventsOnSelectedDate (some sd) events).Perm (events.filter (onDay sd)) ∧
    (∀ e ∈ eventsOnSelectedDate (some sd) events, e.date.isSome = true) ∧
    (eventsOnSelectedDate (some sd) events).Pairwise
      (fun a b => eventTime a ≤ eventTime b) ∧
    (∀ t : Int,
      (eventsOnSelectedDate (some sd) events).filter (fun e => decide (e.date = some t)) =
        events.filter (fun e => decide (e.date = some t) && onDay sd e)) ∧
    (events.filter (onDay sd) = [] → eventsOnSelectedDate (some sd) events = []) := by
  have hr : eventsOnSelectedDate (some sd) events =
      (events.filter (onDay sd)).mergeSort
        (fun a b => decide (eventTime a ≤ eventTime b)) := rfl
  refine ⟨?_, ?_, ?_, ?_, ?_⟩
  · rw [hr]
    exact List.mergeSort_perm _ _
  · intro e he
    rw [hr] at he
    have hmem := (List.mergeSort_perm (events.filter (onDay sd)) _).mem_iff.mp he
    have hp := List.of_mem_filter hmem
    rw [onDay] at hp
    cases hd : e.date with
    | some t => rfl
    | none =>
        rw [hd] at hp
        simp at hp
  · rw [hr]
    have hs := @List.sorted_mergeSort Event
      (fun a b => decide (eventTime a ≤ eventTime b))
      eventTime_le_trans eventTime_le_total (events.filter (onDay sd))
    exact hs.imp (fun h => of_decide_eq_true h)
  · intro t
    have h1 : List.Sublist
        ((events.filter (onDay sd)).filter (fun e => decide (e.date = some t)))
        (events.filter (onDay sd)) := List.filter_sublist _
    have hpw : ((events.filter (onDay sd)).filter
        (fun e => decide (e.date = some t))).Pairwise
        (fun a b => decide (eventTime a ≤ eventTime b) = true) := by
      apply List.pairwise_of_forall_mem_list
      intro a ha b hb
      have ha' := (List.mem_filter.mp ha).2
      have hb' := (List.mem_filter.mp hb).2
      simp only [decide_eq_true_eq] at ha' hb' ⊢
      rw [eventTime, eventTime, ha', hb']
    have h2 : List.Sublist
        ((events.filter (onDay sd)).filter (fun e => decide (e.date = some t)))
        ((events.filter (onDay sd)).mergeSort
          (fun a b => decide (eventTime a ≤ eventTime b))) :=
      List.sublist_mergeSort eventTime_le_trans eventTime_le_total hpw h1
    have h3 : List.Sublist
        ((events.filter (onDay sd)).filter (fun e => decide (e.date = some t)))
        (((events.filter (onDay sd)).mergeSort
          (fun a b => decide (eventTime a ≤ eventTime b))).filter
          (fun e => decide (e.date = some t))) := by
      have hself : ((events.filter (onDay sd)).filter
          (fun e => decide (e.date = some t))).filter
          (fun e => decide (e.date = some t)) =
          (events.filter (onDay sd)).filter (fun e => decide (e.date = some t)) :=
        List.filter_eq_self.mpr (fun a ha => (List.mem_filter.mp ha).2)
      have := h2.filter (fun e => decide (e.date = some t))
      rwa [hself] at this
    have h4 : (((events.filter (onDay sd)).mergeSort
        (fun a b => decide (eventTime a ≤ eventTime b))).filter
          (fun e => decide (e.date = some t))).Perm
        ((events.filter (onDay sd)).filter (fun e => decide (e.date = some t))) :=
      (List.mergeSort_perm _ _).filter _
    have h5 := h3.eq_of_length h4.length_eq.symm
    rw [hr, ← h5, List.filter_filter]
  · intro h
    rw [hr, h]
    exact List.mergeSort_nil

/-- C3 witness: with no matching events, the Day Selector returns the empty
sequence. -/
theorem c3_day_selector_witness :
    eventsOnSelectedDate (some 0) [] = [] :=
  (c3_day_selector 0 []).2.2.2.2 rfl

/-- The day-key predicate of the Event Index: the event's date is valid and
falls on day key `k`. -/
def keyIs (k : Int) (e : Event) : Bool :=
  match e.date with
  | some t => decide (dayOf t = k)
  | none => false

/-- All events stored in the index, in group order. -/
def flattenGroups (m : List (Int × List Event)) : List Event :=
  (m.map Prod.snd).flatten

/-- Reading back a key just written into the map model. -/
theorem mapGet_mapSet (m : List (Int × List Event)) (k k' : Int) (v : List Event) :
    mapGet (mapSet m k v) k' = if k = k' then some v else mapGet m k' := by
  induction m with
  | nil => rfl
  | cons hd tl ih =>
      obtain ⟨k0, v0⟩ := hd
      by_cases h0 : k0 = k
      · subst h0
        by_cases h1 : k0 = k' <;> simp [mapSet, mapGet, h1]
      · by_cases h1 : k0 = k' <;> by_cases h2 : k = k' <;>
          simp_all [mapSet, mapGet]

/-- The group accumulated for key `k` after folding `l` into map `m`. -/
theorem foldl_indexStep_get (l : List Event) :
    ∀ (m : List (Int × List Event)) (k : Int),
      (mapGet (l.foldl indexStep m) k).getD [] =
        (mapGet m k).getD [] ++ l.filter (keyIs k) := by
  induction l with
  | nil =>
      intro m k
      simp
  | cons e tl ih =>
      intro m k
      rw [List.foldl_cons, List.filter_cons]
      cases hd : e.date with
      | none =>
          rw [show indexStep m e = m from by rw [indexStep, hd],
            show keyIs k e = false from by rw [keyIs, hd]]
          simp only [Bool.false_eq_true, if_false]
          exact ih m k
      | some t =>
          rw [show indexStep m e =
              mapSet m (dayOf t) ((mapGet m (dayOf t)).getD [] ++ [e]) from by
            rw [indexStep, hd],
            show keyIs k e = decide (dayOf t = k) from by rw [keyIs, hd]]
          rw [ih, mapGet_mapSet]
          by_cases hk : dayOf t = k
          · rw [if_pos hk, hk]
            simp [List.append_assoc]
          · rw [if_neg hk]
            simp [hk]

/-- Unfolding the flattened index one entry at a time. -/
theorem flattenGroups_cons (p : Int × List Event) (rest : List (Int × List Event)) :
    flattenGroups (p :: rest) = p.2 ++ flattenGroups rest := by
  rw [flattenGroups, List.map_cons, List.flatten_cons]
  rfl

/-- Appending one event to its group permutes the flattened index by one
appended element. -/
theorem flattenGroups_mapSet (m : List (Int × List Event)) (k : Int) (e : Event) :
    (flattenGroups (mapSet m k ((mapGet m k).getD [] ++ [e]))).Perm
      (flattenGroups m ++ [e]) := by
  induction m with
  | nil =>
      simp [mapSet, mapGet, flattenGroups]
  | cons hd tl ih =>
      obtain ⟨k0, v0⟩ := hd
      by_cases h : k0 = k
      · subst h
        have hget : mapGet ((k0, v0) :: tl) k0 = some v0 := by
          rw [mapGet, if_pos rfl]
        have hset : mapSet ((k0, v0) :: tl) k0 ((some v0).getD [] ++ [e]) =
            (k0, (some v0).getD [] ++ [e]) :: tl := by
          rw [mapSet, if_pos rfl]
        rw [hget, hset, flattenGroups_cons, flattenGroups_cons]
        simp only [Option.getD_some, List.append_assoc]
        exact List.Perm.append_left v0 List.perm_append_comm
      · have hget : mapGet ((k0, v0) :: tl) k = mapGet tl k := by
          rw [mapGet, if_neg h]
        have hset : mapSet ((k0, v0) :: tl) k ((mapGet tl k).getD [] ++ [e]) =
            (k0, v0) :: mapSet tl k ((mapGet tl k).getD [] ++ [e]) := by
          rw [mapSet, if_neg h]
        rw [hget, hset, flattenGroups_cons, flattenGroups_cons]
        simp only [List.append_assoc]
        exact List.Perm.append_left v0 ih

/-- Folding `l` into map `m` appends (as a multiset) exactly the valid-dated
events of `l` to the flattened index. -/
theorem foldl_indexStep_flatten (l : List Event) :
    ∀ m : List (Int × List Event),
      (flattenGroups (l.foldl indexStep m)).Perm
        (flattenGroups m ++ l.filter (fun e => e.date.isSome)) := by
  induction l with
  | nil =>
      intro m
      simp
  | cons e tl ih =>
      intro m
      rw [List.foldl_cons, List.filter_cons]
      cases hd : e.date with
      | none =>
          rw [show indexStep m e = m from by rw [indexStep, hd]]
          simp only [hd, Option.isSome_none, Bool.false_eq_true, if_false]
          exact ih m
      | some t =>
          rw [show indexStep m e =
              mapSet m (dayOf t) ((mapGet m (dayOf t)).getD [] ++ [e]) from by
            rw [indexStep, hd]]
          simp only [hd, Option.isSome_some, if_true]
          have h1 := ih (mapSet m (dayOf t) ((mapGet m (dayOf t)).getD [] ++ [e]))
          have h3 := (flattenGroups_mapSet m (dayOf t) e).append_right
            (tl.filter (fun e => e.date.isSome))
          have heq : (flattenGroups m ++ [e]) ++ tl.filter (fun e => e.date.isSome) =
              flattenGroups m ++ (e :: tl.filter (fun e => e.date.isSome)) := by
            rw [List.append_assoc]
            rfl
          rw [← heq]
          exact h1.trans h3

/-- C7: each day-key group of the Event Index is exactly the source-order
filter of the events validly dated on that day; the flattened index is a
permutation of (exactly) the valid-dated events, so none is dropped or
duplicated; and no event belongs to two groups with distinct day keys. -/
theorem c7_event_index (events : List Event) :
    (∀ k : Int, groupOn events k = events.filter (keyIs k)) ∧
    (flattenGroups (eventsByDate events)).Perm
      (events.filter (fun e => e.date.isSome)) ∧
    (∀ k k' : Int, ∀ e : Event,
      e ∈ groupOn events k → e ∈ groupOn events k' → k = k') := by
  have hg : ∀ k, groupOn events k = events.filter (keyIs k) := by
    intro k
    rw [groupOn, eventsByDate, foldl_indexStep_get]
    rfl
  refine ⟨hg, ?_, ?_⟩
  · have h := foldl_indexStep_flatten events []
    rw [eventsByDate]
    simpa using h
  · intro k k' e hk hk'
    rw [hg] at hk hk'
    have h1 := (List.mem_filter.mp hk).2
    have h2 := (List.mem_filter.mp hk').2
    rw [keyIs] at h1 h2
    cases hd : e.date with
    | none =>
        rw [hd] at h1
        simp at h1
    | some t =>
        rw [hd] at h1 h2
        simp only [decide_eq_true_eq] at h1 h2
        omega

/-- C7 witness: two same-day events are grouped under their day key in
source order. -/
theorem c7_event_index_witness :
    groupOn [evFull, evOpen] (dayOf 1750000000000) = [evFull, evOpen] := by
  rw [(c7_event_index [evFull, evOpen]).1 (dayOf 1750000000000)]
  decide

/-- Every row the grid loop builds holds exactly seven cells. -/
theorem buildRows_row_length (endDate : Nat) :
    ∀ (n day : Nat), endDate + 1 - day ≤ n →
      ∀ row ∈ buildRows endDate day, row.length = 7 := by
  intro n
  induction n with
  | zero =>
      intro day hn row hrow
      rw [buildRows, if_neg (by omega)] at hrow
      simp at hrow
  | succ n ih =>
      intro day hn row hrow
      by_cases hle : day ≤ endDate
      · rw [buildRows, if_pos hle] at hrow
        cases List.mem_cons.mp hrow with
        | inl heq =>
            rw [heq]
            simp
        | inr hmem => exact ih (day + 7) (by omega) row hmem
      · rw [buildRows, if_neg hle] at hrow
        simp at hrow

/-- Flattening the grid loop yields the consecutive run of day numbers from
`day` to `endDate`, provided the span is a whole number of weeks. -/
theorem buildRows_flatten (endDate : Nat) :
    ∀ (n day : Nat), endDate + 1 - day ≤ n → day ≤ endDate + 1 →
      (endDate + 1 - day) % 7 = 0 →
      (buildRows endDate day).flatten = List.range' day (endDate + 1 - day) := by
  intro n
  induction n with
  | zero =>
      intro day hn hle hmod
      rw [buildRows, if_neg (by omega), show endDate + 1 - day = 0 from by omega]
      rfl
  | succ n ih =>
      intro day hn hle hmod
      by_cases hcase : day ≤ endDate
      · rw [buildRows, if_pos hcase, List.flatten_cons]
        have hge7 : 7 ≤ endDate + 1 - day := by omega
        rw [ih (day + 7) (by omega) (by omega) (by omega)]
        have h1 : (List.range 7).map (fun i => day + i) = List.range' day 7 := by
          rw [List.range'_eq_map_range]
        rw [h1]
        have h2 := List.range'_append day 7 (endDate + 1 - (day + 7)) 1
        rw [show day + 1 * 7 = day + 7 from by omega] at h2
        rw [h2, show endDate + 1 - (day + 7) + 7 = endDate + 1 - day from by omega]
      · rw [buildRows, if_neg hcase, show endDate + 1 - day = 0 from by omega]
        rfl

/-- Every month has at least one day. -/
theorem daysInMonth_pos (y m : Nat) : 1 ≤ daysInMonth y m := by
  rw [daysInMonth]
  split_ifs <;> omega

/-- Day numbers inside one month advance with the day of the month. -/
theorem rataDie_day (y m d : Nat) (h : 1 ≤ d) :
    rataDie y m d = rataDie y m 1 + (d - 1) := by
  rw [rataDie, rataDie]
  omega

/-- C2: for a valid (year, month), the grid consists of rows of exactly seven
cells; flattened, it is the consecutive, duplicate-free run of day numbers
from the most recent Sunday on/before the 1st through the next Saturday
on/after the month's last day; its first cell is that Sunday; and it contains
every date of the target month. It is a total function with no error path. -/
theorem c2_calendar_grid (y m : Nat) (hm1 : 1 ≤ m) (hm2 : m ≤ 12) :
    (∀ row ∈ calendarDays y m, row.length = 7) ∧
    (calendarDays y m).flatten =
      List.range' (weekStart (monthStartDay y m))
        (weekEnd (monthEndDay y m) + 1 - weekStart (monthStartDay y m)) ∧
    (calendarDays y m).flatten.Nodup ∧
    dayOfWeek (weekStart (monthStartDay y m)) = 0 ∧
    weekStart (monthStartDay y m) ≤ monthStartDay y m ∧
    monthStartDay y m < weekStart (monthStartDay y m) + 7 ∧
    dayOfWeek (weekEnd (monthEndDay y m)) = 6 ∧
    monthEndDay y m ≤ weekEnd (monthEndDay y m) ∧
    weekEnd (monthEndDay y m) < monthEndDay y m + 7 ∧
    (calendarDays y m).flatten.head? = some (weekStart (monthStartDay y m)) ∧
    (∀ d, 1 ≤ d → d ≤ daysInMonth y m →
      rataDie y m d ∈ (calendarDays y m).flatten) := by
  have hws : ∀ n : Nat, weekStart n = n - n % 7 := fun n => rfl
  have hwe : ∀ n : Nat, weekEnd n = n + (6 - n % 7) := fun n => rfl
  have hdw : ∀ n : Nat, dayOfWeek n = n % 7 := fun n => rfl
  have hds : 1 ≤ daysInMonth y m := daysInMonth_pos y m
  have hse : monthStartDay y m ≤ monthEndDay y m := by
    rw [monthStartDay, monthEndDay, rataDie_day y m (daysInMonth y m) hds]
    omega
  have hle : weekStart (monthStartDay y m) ≤ weekEnd (monthEndDay y m) + 1 := by
    rw [hws, hwe]
    omega
  have hmod : (weekEnd (monthEndDay y m) + 1 - weekStart (monthStartDay y m)) % 7 = 0 := by
    rw [hws, hwe]
    omega
  have hflat : (calendarDays y m).flatten =
      List.range' (weekStart (monthStartDay y m))
        (weekEnd (monthEndDay y m) + 1 - weekStart (monthStartDay y m)) := by
    rw [calendarDays]
    exact buildRows_flatten _ _ _ (Nat.le_refl _) hle hmod
  refine ⟨?_, hflat, ?_, ?_, ?_, ?_, ?_, ?_, ?_, ?_, ?_⟩
  · intro row hrow
    exact buildRows_row_length _ _ _ (Nat.le_refl _) row hrow
  · rw [hflat]
    exact List.nodup_range' _ _
  · rw [hdw, hws]
    omega
  · rw [hws]
    omega
  · rw [hws]
    omega
  · rw [hdw, hwe]
    omega
  · rw [hwe]
    omega
  · rw [hwe]
    omega
  · rw [hflat]
    have hspan : weekEnd (monthEndDay y m) + 1 - weekStart (monthStartDay y m) =
        (weekEnd (monthEndDay y m) - weekStart (monthStartDay y m)) + 1 := by
      rw [hws, hwe] at hle ⊢
      omega
    rw [hspan, List.range'_succ]
    rfl
  · intro d h1 h2
    rw [hflat, List.mem_range']
    have hd : rataDie y m d = monthStartDay y m + (d - 1) := rataDie_day y m d h1
    have hdim : monthEndDay y m = monthStartDay y m + (daysInMonth y m - 1) :=
      rataDie_day y m (daysInMonth y m) hds
    have h3 : weekStart (monthStartDay y m) ≤ monthStartDay y m := by
      rw [hws]
      omega
    have h4 : monthEndDay y m ≤ weekEnd (monthEndDay y m) := by
      rw [hwe]
      omega
    exact ⟨rataDie y m d - weekStart (monthStartDay y m), by omega, by omega⟩

/-- C2 witness: the October 2025 grid flattens to the 35 consecutive day
numbers from Sunday 2025-09-28 through Saturday 2025-11-01. -/
theorem c2_calendar_grid_witness :
    (calendarDays 2025 10).flatten = List.range' 739522 35 := by
  rw [(c2_calendar_grid 2025 10 (by decide) (by decide)).2.1]
  rfl
